import Mathlib

/-!
Verification of the `assoc_threadlocal` crate: a mechanism attaching one
thread-local storage cell of a chosen value type to an owner type,
disambiguated by a tag type.  Each macro invocation
`assoc_threadlocal!(TAG:T, TARGET = INIT)` generates an implementation of
`AssocThreadLocal<TARGET, TAG> for T` whose `the_threadlocal` accesses a
`std::thread_local!` static holding a `Cell<TARGET>`, lazily initialized to
`INIT` on a thread's first access.

Shallow embedding: an Association is the triple (OwnerType, TagType,
ValueType), modelled by `AssocKey`.  A `Registry` assigns to every key the
Lean type of stored values and the statically-known initial value (the
macro's `INIT` expression).  A single thread's view of all the generated
thread-local statics is `ThreadState`: a dependent map from keys to
`Option` values, `none` meaning this thread has never touched that
Association's static (lazy initialization has not run yet).
-/

/-- An Association, identified by the (OwnerType, TagType, ValueType)
triple.  Types are represented by codes (`Nat`); two Associations are the
same exactly when all three codes agree. -/
structure AssocKey where
  owner : Nat
  tag : Nat
  valueTy : Nat
deriving DecidableEq, Repr

/-- The set of Associations defined by `assoc_threadlocal!` invocations:
for each key, the Lean type interpreting its ValueType and the `INIT`
expression's value. -/
structure Registry where
  TyOf : AssocKey → Type
  init : (k : AssocKey) → TyOf k

/-- One thread's view of every Association's thread-local static:
`none` means the static was never accessed from this thread, so its
lazy initializer has not run. -/
def ThreadState (R : Registry) : Type :=
  (k : AssocKey) → Option (R.TyOf k)

/-- A freshly spawned thread: no thread-local static initialized yet. -/
def freshState (R : Registry) : ThreadState R :=
  fun _ => none

/-- `AssocThreadLocal::the_threadlocal`: accessing the `thread_local!`
static for Association `k`.  If this thread never touched it, the cell is
created holding the initial value (`Cell::new(INIT)`); otherwise the
existing cell is left as is.  Statics of other Associations are untouched. -/
def the_threadlocal (R : Registry) (s : ThreadState R) (k : AssocKey) :
    ThreadState R :=
  fun j => if j = k then some ((s j).getD (R.init j)) else s j

/-- `AssocThreadLocal::get_threadlocal`: access the static (running lazy
initialization if needed), then `Cell::get` the current value.  Returns the
read value together with the resulting thread state. -/
def get_threadlocal (R : Registry) (s : ThreadState R) (k : AssocKey) :
    R.TyOf k × ThreadState R :=
  let s1 := the_threadlocal R s k
  (((s1 k).getD (R.init k)), s1)

/-- `AssocThreadLocal::set_threadlocal`: access the static (running lazy
initialization if needed), then `Cell::set value`, overwriting this
thread's cell for `k` in place. -/
def set_threadlocal (R : Registry) (s : ThreadState R) (k : AssocKey)
    (v : R.TyOf k) : ThreadState R :=
  let s1 := the_threadlocal R s k
  fun j => if h : j = k then some (cast (congrArg R.TyOf h.symm) v) else s1 j

/-- `AssocThreadLocal::get_threadlocal_from`: instance-based form; the
instance argument is ignored (`_this`) and the type-based accessor is
called. -/
def get_threadlocal_from (R : Registry) {Owner : Type} (s : ThreadState R)
    (k : AssocKey) (_this : Owner) : R.TyOf k × ThreadState R :=
  get_threadlocal R s k

/-- `AssocThreadLocal::set_threadlocal_of`: instance-based form; the
instance argument is ignored (`_this`) and the type-based accessor is
called. -/
def set_threadlocal_of (R : Registry) {Owner : Type} (s : ThreadState R)
    (k : AssocKey) (_this : Owner) (v : R.TyOf k) : ThreadState R :=
  set_threadlocal R s k v

/- Basic cell lemmas. -/

theorem the_threadlocal_at_key (R : Registry) (s : ThreadState R)
    (k : AssocKey) :
    the_threadlocal R s k k = some ((s k).getD (R.init k)) := by
  simp [the_threadlocal]

theorem the_threadlocal_frame (R : Registry) (s : ThreadState R)
    (k j : AssocKey) (h : j ≠ k) :
    the_threadlocal R s k j = s j := by
  simp [the_threadlocal, h]

theorem set_threadlocal_at_key (R : Registry) (s : ThreadState R)
    (k : AssocKey) (v : R.TyOf k) :
    set_threadlocal R s k v k = some v := by
  simp [set_threadlocal]

theorem set_threadlocal_frame (R : Registry) (s : ThreadState R)
    (k j : AssocKey) (v : R.TyOf k) (h : j ≠ k) :
    set_threadlocal R s k v j = s j := by
  simp [set_threadlocal, the_threadlocal, h]

theorem get_threadlocal_of_some (R : Registry) (s : ThreadState R)
    (k : AssocKey) (v : R.TyOf k) (h : s k = some v) :
    (get_threadlocal R s k).1 = v := by
  simp [get_threadlocal, the_threadlocal_at_key, h]

/-- C1: a fresh thread's first `get` on any Association returns that
Association's initial value: the per-thread cell is lazily initialized to
the statically-known `INIT` on first access. -/
theorem fresh_get_eq_init (R : Registry) (k : AssocKey) :
    (get_threadlocal R (freshState R) k).1 = R.init k := by
  simp [get_threadlocal, the_threadlocal, freshState]

/-!
Single-thread operation traces: any interleaving of `get_threadlocal` and
`set_threadlocal` calls performed by one thread, used to state
last-write-wins.
-/

/-- One accessor call performed by a thread. -/
inductive AssocOp (R : Registry) where
  | getOp (k : AssocKey)
  | setOp (k : AssocKey) (v : R.TyOf k)

/-- The thread state after one accessor call (a `get` changes state only
through lazy initialization; a `set` overwrites the cell). -/
def stepOp (R : Registry) (s : ThreadState R) : AssocOp R → ThreadState R
  | AssocOp.getOp k => (get_threadlocal R s k).2
  | AssocOp.setOp k v => set_threadlocal R s k v

/-- The thread state after a whole sequence of accessor calls. -/
def runOps (R : Registry) (s : ThreadState R) :
    List (AssocOp R) → ThreadState R
  | [] => s
  | op :: rest => runOps R (stepOp R s op) rest

/-- The value of the most recent `set` to Association `k` in a trace,
if any. -/
def lastSet (R : Registry) (k : AssocKey) :
    List (AssocOp R) → Option (R.TyOf k)
  | [] => none
  | AssocOp.getOp _ :: rest => lastSet R k rest
  | AssocOp.setOp j v :: rest =>
      match lastSet R k rest with
      | some w => some w
      | none => if h : j = k then some (cast (congrArg R.TyOf h) v) else none

theorem the_threadlocal_keeps_some (R : Registry) (s : ThreadState R)
    (k j : AssocKey) (v : R.TyOf k) (h : s k = some v) :
    the_threadlocal R s j k = some v := by
  by_cases hkj : k = j
  · subst hkj
    simp [the_threadlocal, h]
  · simp [the_threadlocal, hkj, h]

theorem runOps_keeps_some (R : Registry) (s : ThreadState R)
    (ops : List (AssocOp R)) (k : AssocKey) (v : R.TyOf k)
    (hcell : s k = some v) (hnone : lastSet R k ops = none) :
    runOps R s ops k = some v := by
  induction ops generalizing s with
  | nil => exact hcell
  | cons op rest ih =>
    cases op with
    | getOp j =>
      simp only [lastSet] at hnone
      exact ih ((get_threadlocal R s j).2)
        (the_threadlocal_keeps_some R s k j v hcell) hnone
    | setOp j w =>
      simp only [lastSet] at hnone
      rcases hrest : lastSet R k rest with _ | w2
      · rw [hrest] at hnone
        by_cases hjk : j = k
        · simp [hjk] at hnone
        · refine ih (set_threadlocal R s j w) ?_ hrest
          have hkj : (k ≠ j) := fun hh => hjk hh.symm
          rw [set_threadlocal_frame R s j k w hkj]
          exact hcell
      · rw [hrest] at hnone
        simp at hnone

/-- C2: in any single-thread trace, a `get` on Association `k` returns the
value passed to the most recent preceding `set` on the same thread and
Association (last-write-wins); in particular `set v` immediately followed
by `get` yields `v`. -/
theorem get_returns_lastSet (R : Registry) (s : ThreadState R)
    (ops : List (AssocOp R)) (k : AssocKey) (v : R.TyOf k)
    (h : lastSet R k ops = some v) :
    (get_threadlocal R (runOps R s ops) k).1 = v := by
  induction ops generalizing s with
  | nil => simp [lastSet] at h
  | cons op rest ih =>
    cases op with
    | getOp j =>
      simp only [lastSet] at h
      exact ih ((get_threadlocal R s j).2) h
    | setOp j w =>
      simp only [lastSet] at h
      rcases hrest : lastSet R k rest with _ | w2
      · rw [hrest] at h
        by_cases hjk : j = k
        · subst hjk
          simp at h
          cases h
          have hcell : set_threadlocal R s j w j = some w :=
            set_threadlocal_at_key R s j w
          have hrun : runOps R (set_threadlocal R s j w) rest j = some w :=
            runOps_keeps_some R (set_threadlocal R s j w) rest j w hcell hrest
          exact get_threadlocal_of_some R (runOps R (set_threadlocal R s j w) rest) j w hrun
        · simp [hjk] at h
      · rw [hrest] at h
        cases h
        exact ih (set_threadlocal R s j w) hrest

/-- An example registry where every Association stores a natural number,
initialized to 0, for exercising the theorems on concrete inputs. -/
abbrev natRegistry : Registry :=
  ⟨fun _ => Nat, fun _ => 0⟩

/-- Three concrete Associations on the same owner: `keyB` differs from
`keyA` only in TagType, `keyC` only in ValueType. -/
def keyA : AssocKey := ⟨0, 0, 0⟩

def keyB : AssocKey := ⟨0, 1, 0⟩

def keyC : AssocKey := ⟨0, 0, 1⟩

/-- Witness for C2: after the trace set keyA 3, set keyA 5, get keyB, a
`get` on keyA returns 5, the most recently set value. -/
theorem get_returns_lastSet_witness :
    (get_threadlocal natRegistry (runOps natRegistry (freshState natRegistry)
        [AssocOp.setOp keyA 3, AssocOp.setOp keyA 5, AssocOp.getOp keyB])
      keyA).1 = 5 :=
  get_returns_lastSet natRegistry (freshState natRegistry)
    [AssocOp.setOp keyA 3, AssocOp.setOp keyA 5, AssocOp.getOp keyB]
    keyA 5 rfl

/-- C3: distinct Associations are independent storage.  For two
Associations on the same OwnerType that differ in TagType or in ValueType,
a `set` on the first neither changes the stored cell of the second nor the
value a subsequent `get` on the second observes, on the same thread. -/
theorem assoc_independence (R : Registry) (s : ThreadState R)
    (k1 k2 : AssocKey) (v : R.TyOf k1)
    (howner : k1.owner = k2.owner)
    (hdiff : k1.tag ≠ k2.tag ∨ k1.valueTy ≠ k2.valueTy) :
    set_threadlocal R s k1 v k2 = s k2 ∧
    (get_threadlocal R (set_threadlocal R s k1 v) k2).1 =
      (get_threadlocal R s k2).1 := by
  have hne : k2 ≠ k1 := by
    intro hh
    subst hh
    rcases hdiff with hd | hd <;> exact hd rfl
  have hframe := set_threadlocal_frame R s k1 k2 v hne
  refine ⟨hframe, ?_⟩
  simp [get_threadlocal, the_threadlocal_at_key, hframe]

/-- Witness for C3: `keyA` and `keyB` share owner and ValueType and differ
only in TagType; setting `keyA` to 9 on a fresh thread leaves `keyB`
untouched. -/
theorem assoc_independence_witness :
    set_threadlocal natRegistry (freshState natRegistry) keyA 9 keyB =
      freshState natRegistry keyB ∧
    (get_threadlocal natRegistry
        (set_threadlocal natRegistry (freshState natRegistry) keyA 9)
      keyB).1 = (get_threadlocal natRegistry (freshState natRegistry) keyB).1 :=
  assoc_independence natRegistry (freshState natRegistry) keyA keyB 9
    (by decide) (Or.inl (by decide))

/-- C4: the instance-based accessors are literally the type-based ones on
the same per-thread cell: the instance argument is never used (any two
instances give the same result), and `set_threadlocal_of instance v`
followed by a type-based `get_threadlocal` returns `v`. -/
theorem instance_accessors_eq (R : Registry) {Owner : Type} (o o2 : Owner)
    (s : ThreadState R) (k : AssocKey) (v : R.TyOf k) :
    get_threadlocal_from R s k o = get_threadlocal R s k ∧
    set_threadlocal_of R s k o v = set_threadlocal R s k v ∧
    get_threadlocal_from R s k o = get_threadlocal_from R s k o2 ∧
    (get_threadlocal R (set_threadlocal_of R s k o v) k).1 = v := by
  refine ⟨rfl, rfl, rfl, ?_⟩
  exact get_threadlocal_of_some R (set_threadlocal R s k v) k v
    (set_threadlocal_at_key R s k v)

/-- C5: no runtime failure path.  A `get` always yields a value (of the
Association's ValueType, by typing) and afterwards the cell provably holds
exactly that value — lazy initialization guarantees a value is always
present — and a `set` always succeeds, leaving the cell holding the written
value. -/
theorem accessors_total (R : Registry) (s : ThreadState R) (k : AssocKey)
    (v : R.TyOf k) :
    ((get_threadlocal R s k).2) k = some ((get_threadlocal R s k).1) ∧
    (set_threadlocal R s k v) k = some v := by
  refine ⟨?_, set_threadlocal_at_key R s k v⟩
  simp [get_threadlocal, the_threadlocal_at_key]

/-- C6: `get` has no observable side effect beyond the one-time lazy
initialization: repeating a `get` returns the same value and the very same
state (so two consecutive gets with no intervening set agree), and a `get`
on `k` leaves every other Association's cell unchanged. -/
theorem get_no_side_effect (R : Registry) (s : ThreadState R)
    (k : AssocKey) :
    get_threadlocal R (get_threadlocal R s k).2 k = get_threadlocal R s k ∧
    (∀ j, j ≠ k → ((get_threadlocal R s k).2) j = s j) := by
  constructor
  · have hidem :
        the_threadlocal R (the_threadlocal R s k) k = the_threadlocal R s k := by
      funext j
      by_cases hj : j = k
      · subst hj
        simp [the_threadlocal]
      · simp [the_threadlocal, hj]
    simp [get_threadlocal, hidem]
  · intro j hj
    exact the_threadlocal_frame R s k j hj

/-- Witness for C6: a `get` on `keyA` from a fresh thread leaves the cell
of `keyB` untouched. -/
theorem get_no_side_effect_witness :
    ((get_threadlocal natRegistry (freshState natRegistry) keyA).2) keyB =
      freshState natRegistry keyB :=
  (get_no_side_effect natRegistry (freshState natRegistry) keyA).2 keyB
    (by decide)

/-- C10: if a thread's very first operation on an Association is a `set v`,
lazy initialization runs before the write and never overwrites it: touching
the cell after any `set` leaves the state unchanged, and after `set v` on a
fresh thread every subsequent `get` (any number of them) returns `v`. -/
theorem set_first_then_get (R : Registry) (s : ThreadState R)
    (k : AssocKey) (v : R.TyOf k) :
    the_threadlocal R (set_threadlocal R s k v) k = set_threadlocal R s k v ∧
    ∀ n : Nat,
      (get_threadlocal R
          (runOps R (set_threadlocal R (freshState R) k v)
            (List.replicate n (AssocOp.getOp k)))
        k).1 = v := by
  constructor
  · funext j
    by_cases hj : j = k
    · subst hj
      simp [the_threadlocal, set_threadlocal_at_key]
    · simp [the_threadlocal, hj]
  · intro n
    have hnone : lastSet R k (List.replicate n (AssocOp.getOp k)) = none := by
      induction n with
      | zero => rfl
      | succ m ih => simpa [List.replicate_succ, lastSet] using ih
    have hcell := runOps_keeps_some R (set_threadlocal R (freshState R) k v)
      (List.replicate n (AssocOp.getOp k)) k v
      (set_threadlocal_at_key R (freshState R) k v) hnone
    exact get_threadlocal_of_some R _ k v hcell

/-!
Multi-thread model: `std::thread_local!` gives every thread its own
instance of each generated static, so the global state is one `ThreadState`
per thread identifier, and every accessor call acts on the calling thread's
state only.
-/

/-- The program state across threads: each thread id owns its own
independent view of all the thread-local statics. -/
def MultiState (R : Registry) : Type :=
  Nat → ThreadState R

/-- `set_threadlocal` called by thread `t`. -/
def set_on_thread (R : Registry) (m : MultiState R) (t : Nat)
    (k : AssocKey) (v : R.TyOf k) : MultiState R :=
  fun u => if u = t then set_threadlocal R (m u) k v else m u

/-- `get_threadlocal` called by thread `t`: the value read, and the
resulting program state. -/
def get_on_thread (R : Registry) (m : MultiState R) (t : Nat)
    (k : AssocKey) : R.TyOf k × MultiState R :=
  ((get_threadlocal R (m t) k).1,
    fun u => if u = t then (get_threadlocal R (m u) k).2 else m u)

/-- An accessor call together with the thread performing it. -/
structure ThreadedOp (R : Registry) where
  tid : Nat
  op : AssocOp R

/-- Run an arbitrary interleaving of calls from several threads. -/
def runThreaded (R : Registry) (m : MultiState R) :
    List (ThreadedOp R) → MultiState R
  | [] => m
  | x :: rest =>
      runThreaded R (fun u => if u = x.tid then stepOp R (m u) x.op else m u)
        rest

theorem runThreaded_other_threads (R : Registry) (ops : List (ThreadedOp R))
    (u : Nat) :
    ∀ m : MultiState R, (∀ x ∈ ops, x.tid ≠ u) → runThreaded R m ops u = m u := by
  induction ops with
  | nil =>
    intro m _
    rfl
  | cons x rest ih =>
    intro m hops
    simp only [runThreaded]
    rw [ih _ (fun y hy => hops y (List.mem_cons_of_mem x hy))]
    exact if_neg (fun hh => hops x (List.mem_cons_self x rest) hh.symm)

/-- C9: a `set` is confined to the calling thread: it leaves every other
thread's state untouched, a `get` on any other thread observes the same
value as before, and more generally any interleaving of operations
performed exclusively by thread `t` leaves the whole state of a different
thread `u` unchanged — there is no shared mutable state between threads. -/
theorem set_confined_to_thread (R : Registry) (m : MultiState R)
    (t u : Nat) (k j : AssocKey) (v : R.TyOf k) (h : u ≠ t) :
    set_on_thread R m t k v u = m u ∧
    (get_on_thread R (set_on_thread R m t k v) u j).1 =
      (get_on_thread R m u j).1 ∧
    ∀ ops : List (ThreadedOp R), (∀ x ∈ ops, x.tid = t) →
      runThreaded R m ops u = m u := by
  refine ⟨?_, ?_, ?_⟩
  · simp [set_on_thread, h]
  · simp [get_on_thread, set_on_thread, h]
  · intro ops hops
    exact runThreaded_other_threads R ops u m
      (fun x hx => by rw [hops x hx]; exact fun hh => h hh.symm)

/-- Witness for C9: thread 1 sets `keyA` to 4; thread 0's `get` on `keyA`
still returns the initial value 0, and thread 0's state is unchanged. -/
theorem set_confined_to_thread_witness :
    (get_on_thread natRegistry
        (set_on_thread natRegistry (fun _ => freshState natRegistry) 1 keyA 4)
      0 keyA).1 =
      (get_on_thread natRegistry (fun _ => freshState natRegistry) 0 keyA).1 :=
  (set_confined_to_thread natRegistry (fun _ => freshState natRegistry)
    1 0 keyA keyA 4 (by decide)).2.1
